import Mathlib

/-!
Verification development for the flex-dto runtime object-mapping engine
(src/index.ts).  The engine populates a declared data object from a
loosely-typed input object (snake_case/camelCase key conversion, aliases,
per-field transform functions) and projects it back to a plain object.

Shallow embedding notes:
* JavaScript runtime values are modelled by the inductive type `Value`;
  `typeof` is `Value.typeof`, truthiness is `Value.isTruthy`.  Numbers are
  modelled by `Int` (no claim here depends on float arithmetic).
* A DTO instance is an own-property map `fields` (insertion ordered,
  unique keys, as JavaScript own properties are) plus the names of the
  callable members reachable through the prototype chain (`methods`).
  The library's private `_opts` / `_strictMode` bookkeeping is modelled
  by the separate `Config` record; being `_`-prefixed, those two own
  properties are filtered out of every code path embedded here.
* Class fields declared without an initializer exist at runtime as own
  properties holding `undefined` (ES2022 class-field semantics; the
  repository's test suite, tests/index.test.ts `NoInitialValueDto`,
  exercises exactly this behaviour).  Such fields are modelled as
  entries carrying `Value.vUndefined`.
* A transform function is any Lean function `Value → Except String Value`;
  `Except.error` models a thrown exception (carrying `error.message`),
  mirroring the `try`/`catch` in `init`.
* `console.warn` diagnostics are collected in a `List Diag` result
  component instead of being printed.
* The strict-mode type-mismatch warning interpolates `JSON.stringify(value)`
  (src/index.ts line 307) outside any `try`/`catch`, and `JSON.stringify`
  throws a `TypeError` on BigInt values (modelled by `Value.vBigInt`; the
  predicate `jsonUnserializable` decides when the call throws).  The
  embedding therefore has two layers: the error-faithful
  `validateType`/`applyPipelineE`/`processEntryE`/`initE` return
  `Except String _` and surface that throw, while the total
  `validateTypeDiags`/`applyPipeline`/`processEntry`/`init` describe the
  non-throwing executions; `initE_ok_agrees` proves `init` is exactly the
  restriction of `initE` to its `Except.ok` runs.
-/

namespace FlexDto

/-- A JavaScript runtime value, as far as the library observes it:
primitives, plain objects, arrays, FlexDto instances and functions. -/
inductive Value where
  | vUndefined : Value
  | vNull : Value
  | vBool : Bool → Value
  | vNum : Int → Value
  | vBigInt : Int → Value
  | vStr : String → Value
  | vObj : List (String × Value) → Value
  | vArr : List Value → Value
  | vDto : List (String × Value) → List String → Value
  | vFn : Value
deriving Repr

mutual

/-- Structural equality test for `Value` (`deriving DecidableEq` does not
handle the nested lists). -/
def Value.beq : Value → Value → Bool
  | .vUndefined, .vUndefined => true
  | .vNull, .vNull => true
  | .vBool a, .vBool b => a == b
  | .vNum a, .vNum b => a == b
  | .vBigInt a, .vBigInt b => a == b
  | .vStr a, .vStr b => a == b
  | .vObj a, .vObj b => Value.beqFields a b
  | .vArr a, .vArr b => Value.beqList a b
  | .vDto a ma, .vDto b mb => Value.beqFields a b && ma == mb
  | .vFn, .vFn => true
  | _, _ => false

def Value.beqFields : List (String × Value) → List (String × Value) → Bool
  | [], [] => true
  | (k1, v1) :: r1, (k2, v2) :: r2 => k1 == k2 && Value.beq v1 v2 && Value.beqFields r1 r2
  | _, _ => false

def Value.beqList : List Value → List Value → Bool
  | [], [] => true
  | v1 :: r1, v2 :: r2 => Value.beq v1 v2 && Value.beqList r1 r2
  | _, _ => false

end


/-- The tag `typeof v` as JavaScript computes it. -/
def Value.typeof : Value → String
  | .vUndefined => "undefined"
  | .vNull => "object"
  | .vBool _ => "boolean"
  | .vNum _ => "number"
  | .vBigInt _ => "bigint"
  | .vStr _ => "string"
  | .vObj _ => "object"
  | .vArr _ => "object"
  | .vDto _ _ => "object"
  | .vFn => "function"

/-- JavaScript truthiness. -/
def Value.isTruthy : Value → Bool
  | .vUndefined => false
  | .vNull => false
  | .vBool b => b
  | .vNum n => n != 0
  | .vBigInt n => n != 0
  | .vStr s => s != ""
  | _ => true

/-- The test `v === undefined`. -/
def Value.isUndef : Value → Bool
  | .vUndefined => true
  | _ => false

/-- The test `v === null`. -/
def Value.isNullValue : Value → Bool
  | .vNull => true
  | _ => false

/-- The own enumerable string-keyed properties `for…in` visits after the
`hasOwnProperty` filter: the entries of a plain object, index/element
pairs of an array, the fields of a nested DTO instance. -/
def Value.ownEntries : Value → List (String × Value)
  | .vObj es => es
  | .vArr xs => xs.enum.map (fun p => (toString p.1, p.2))
  | .vDto fs _ => fs
  | _ => []

/-- JavaScript `s.startsWith("_")`: the first character is an underscore. -/
def startsUnderscore (s : String) : Bool :=
  match s.data with
  | '_' :: _ => true
  | _ => false

/-- JavaScript `s.includes("_")`: searching for the one-character needle is
character containment. -/
def containsUnderscore (s : String) : Bool :=
  s.data.contains '_'

-- ===========================================================================
-- Case converters (src/index.ts lines 110-139)
-- ===========================================================================

/-- Character-list core of `toCamelCase`: the left-to-right, non-overlapping
replacement of every `_x` digraph (underscore followed by an ASCII lowercase
letter, the regex class `[a-z]`) by the uppercased letter. -/
def camelChars : List Char → List Char
  | [] => []
  | c :: rest =>
    if c = '_' then
      match rest with
      | [] => ['_']
      | d :: rest2 =>
        if 'a' ≤ d && d ≤ 'z' then d.toUpper :: camelChars rest2
        else '_' :: camelChars (d :: rest2)
    else c :: camelChars rest

/-- Source `toCamelCase` (line 136): empty/falsy input returned unchanged, else
`str.replace(/_([a-z])/g, (_, letter) => letter.toUpperCase())`. -/
def toCamelCase (s : String) : String :=
  if s = "" then s else String.mk (camelChars s.data)

/-- The test `char === char.toUpperCase() && char !== char.toLowerCase()` — the
source's test for an uppercase (cased) character. -/
def jsIsUpper (c : Char) : Bool := c.toUpper == c && c.toLower != c

/-- The test `char === char.toLowerCase() && char !== char.toUpperCase()`. -/
def jsIsLower (c : Char) : Bool := c.toLower == c && c.toUpper != c

/-- Character-list core of `toSnakeCase`: walk with the previous character in
hand (`none` at index 0); an uppercase letter is lowercased and preceded by an
underscore when `i > 0 && (!prevIsUpper || (prevIsUpper && nextIsLower))`. -/
def snakeChars (prev : Option Char) : List Char → List Char
  | [] => []
  | c :: rest =>
    if jsIsUpper c then
      let prevIsUpper := match prev with
        | some p => jsIsUpper p
        | none => false
      let nextIsLower := match rest with
        | n :: _ => jsIsLower n
        | [] => false
      if prev.isSome && (!prevIsUpper || (prevIsUpper && nextIsLower)) then
        '_' :: c.toLower :: snakeChars (some c) rest
      else
        c.toLower :: snakeChars (some c) rest
    else
      c :: snakeChars (some c) rest

/-- Source `toSnakeCase` (line 110): empty/falsy input returned unchanged. -/
def toSnakeCase (s : String) : String :=
  if s = "" then s else String.mk (snakeChars none s.data)

-- ===========================================================================
-- Instances, diagnostics, configuration
-- ===========================================================================

/-- A FlexDto instance: its own data properties (insertion ordered, keys
unique as in any JavaScript object) and the names bound to callables through
its prototype chain (the class methods). -/
structure Instance where
  fields : List (String × Value)
  methods : List String
deriving Repr

/-- Property access `this[k]`: own property first, else a prototype method,
else `undefined`. -/
def Instance.getProp (self : Instance) (k : String) : Value :=
  match self.fields.lookup k with
  | some v => v
  | none => if self.methods.contains k then Value.vFn else Value.vUndefined

/-- Property assignment `this[k] = v`: overwrite the own property in place,
or append a fresh own property (JavaScript insertion order). -/
def Instance.setField (self : Instance) (k : String) (v : Value) : Instance :=
  if (self.fields.lookup k).isSome then
    { self with fields := self.fields.map (fun p => if p.1 == k then (p.1, v) else p) }
  else
    { self with fields := self.fields ++ [(k, v)] }

/-- The filter `getClassFields` applies to an own property: not
underscore-prefixed and not function-valued. -/
def fieldEntryOk (p : String × Value) : Bool :=
  !startsUnderscore p.1 && p.2.typeof != "function"

/-- Source `getClassFields` (line 324): every non-underscore, non-function-valued
own property of the instance.  The source additionally walks the prototype
chain for non-accessor data properties; for a compiled TypeScript class the
chain between the instance and `FlexDto.prototype` carries only methods
(functions) and `constructor`, so that walk contributes nothing and the
prototype is represented here only by `methods`. -/
def getClassFields (self : Instance) : List String :=
  (self.fields.filter fieldEntryOk).map Prod.fst

/-- A `console.warn` diagnostic emitted by the library. -/
inductive Diag where
  | typeMismatch (className fieldName expected actual : String) : Diag
  | transformFailure (className fieldName msg : String) : Diag
deriving Repr, DecidableEq

def Diag.isTypeMismatch : Diag → Bool
  | .typeMismatch _ _ _ _ => true
  | .transformFailure _ _ _ => false

/-- The strictness/diagnostics state a populate call sees: the per-call
`options.strictMode`, the `_strictMode` auto-detected at construction, and
what `isDevelopmentMode()` returns when a warning is about to print. -/
structure Config where
  optsStrict : Option Bool
  autoStrict : Bool
  isDev : Bool
deriving Repr, DecidableEq

/-- The resolution `this._opts.strictMode ?? this._strictMode`. -/
def Config.strictMode (cfg : Config) : Bool := cfg.optsStrict.getD cfg.autoStrict

/-- A transform function; `Except.error msg` models a throw whose
`error.message` is `msg`. -/
abbrev Tf := Value → Except String Value

/-- The diagnostics `validateType` (line 289) prints on the runs where
composing its warning message does not throw; the full behaviour, including
the `JSON.stringify(value)` evaluated inside the message (line 307), is
`validateType` below. -/
def validateTypeDiags (cfg : Config) (className key : String) (value : Value)
    (expectedType : String) : List Diag :=
  if !cfg.strictMode then []
  else if !(value.typeof == expectedType ||
      (expectedType == "object" &&
        (value.typeof == "object" || value.typeof == "undefined" || value.isNullValue))) then
    if cfg.isDev then [Diag.typeMismatch className key expectedType value.typeof]
    else []
  else []

mutual

/-- Whether `JSON.stringify(value)` throws: it does exactly when a BigInt
value sits in a serialized position — at the top level, as an enumerable
property value of a plain object (function-valued properties are skipped),
as an array element, or inside a nested FlexDto, which is serialized through
its `toJSON` projection (so its function-valued and `_`-prefixed fields are
skipped).  Circular structures cannot arise in the inductive `Value`. -/
def jsonUnserializable : Value → Bool
  | .vBigInt _ => true
  | .vObj es => jsonUnserializableFields false es
  | .vArr xs => jsonUnserializableArr xs
  | .vDto fs _ => jsonUnserializableFields true fs
  | _ => false

def jsonUnserializableFields : Bool → List (String × Value) → Bool
  | _, [] => false
  | dtoMode, (k, v) :: rest =>
    (if (dtoMode && startsUnderscore k) || v.typeof == "function" then false
     else jsonUnserializable v) || jsonUnserializableFields dtoMode rest

def jsonUnserializableArr : List Value → Bool
  | [] => false
  | v :: rest => jsonUnserializable v || jsonUnserializableArr rest

end

/-- Source `validateType` (line 289) in full: on a type mismatch in strict
development mode the warning's template literal evaluates
`JSON.stringify(value)` (line 307) with no surrounding try/catch, so an
unserializable value makes the call throw instead of warning; the error
(message abstracted) propagates to `validateType`'s caller. -/
def validateType (cfg : Config) (className key : String) (value : Value)
    (expectedType : String) : Except String (List Diag) :=
  if !cfg.strictMode then .ok []
  else if !(value.typeof == expectedType ||
      (expectedType == "object" &&
        (value.typeof == "object" || value.typeof == "undefined" || value.isNullValue))) then
    if cfg.isDev then
      if jsonUnserializable value then .error "TypeError: JSON.stringify"
      else .ok [Diag.typeMismatch className key expectedType value.typeof]
    else .ok []
  else .ok []

-- ===========================================================================
-- Field resolver (src/index.ts lines 390-435)
-- ===========================================================================

/-- Source `findMatchingField`: exact match, camelCase-converted match, alias table
scan, reverse alias scan over the declared fields, then the fallback for
fields declared without an initial value. -/
def findMatchingField (self : Instance) (dataKey : String)
    (classFields : List String) (aliases : List (String × List String)) : Option String :=
  if classFields.contains dataKey then some dataKey
  else if classFields.contains (toCamelCase dataKey) then some (toCamelCase dataKey)
  else
    match aliases.find? (fun p => classFields.contains p.1 &&
        (p.2.contains dataKey || p.2.contains (toCamelCase dataKey))) with
    | some p => some p.1
    | none =>
      match classFields.find? (fun fieldKey =>
          match aliases.lookup fieldKey with
          | some fieldAliases =>
              fieldAliases.contains dataKey ||
                fieldAliases.contains (toCamelCase dataKey)
          | none => false) with
      | some fieldKey => some fieldKey
      | none =>
        if toCamelCase dataKey != "" && toCamelCase dataKey != dataKey &&
            !startsUnderscore (toCamelCase dataKey) &&
            (self.getProp (toCamelCase dataKey)).typeof != "function" then
          some (toCamelCase dataKey)
        else none

-- ===========================================================================
-- init (src/index.ts lines 445-533)
-- ===========================================================================

/-- Spread-merge `{...a, ...b}` of two string-keyed records (assoc lists with
unique keys): the keys of `a` in order with `b`'s value where `b` overrides,
then the keys only `b` has, in `b`'s order. -/
def mergeRecord {α : Type} (a b : List (String × α)) : List (String × α) :=
  (a.map (fun p => match b.lookup p.1 with
    | some v => (p.1, v)
    | none => p)) ++
  b.filter (fun p => (a.lookup p.1).isNone)

/-- The value pipeline for one resolved field (lines 497-530): apply the
transform inside `try`/`catch` if one is registered, otherwise validate the
type when an expected type is known, then assign. -/
def applyPipeline (cfg : Config) (className : String)
    (transforms : List (String × Tf)) (self : Instance)
    (targetKey : String) (value : Value) : Instance × List Diag :=
  let currentValue := self.getProp targetKey
  let expectedType : Option String :=
    if currentValue.isUndef then none else some currentValue.typeof
  match transforms.lookup targetKey with
  | some transform =>
    match transform value with
    | Except.ok r => (self.setField targetKey r, [])
    | Except.error msg =>
      let diags := if cfg.strictMode && cfg.isDev
        then [Diag.transformFailure className targetKey msg] else []
      (self.setField targetKey value, diags)
  | none =>
    let diags :=
      match expectedType with
      | some et =>
          if cfg.strictMode then validateTypeDiags cfg className targetKey value et else []
      | none => []
    (self.setField targetKey value, diags)

/-- The full target selection of `init`'s key loop (lines 472-486):
`findMatchingField` followed by the re-run of the uninitialized-field
fallback (line 476, same condition as the resolver's own step 5).  The
fallback re-runs whenever `targetKey` is falsy — `null` or the empty
string — so an empty-string resolver result is also retried. -/
def resolveTarget (self : Instance) (dataKey : String) (classFields : List String)
    (aliases : List (String × List String)) : Option String :=
  match findMatchingField self dataKey classFields aliases with
  | some t =>
    if t != "" then some t
    else if toCamelCase dataKey != "" && toCamelCase dataKey != dataKey &&
        !startsUnderscore (toCamelCase dataKey) &&
        (self.getProp (toCamelCase dataKey)).typeof != "function" then
      some (toCamelCase dataKey)
    else some t
  | none =>
    if toCamelCase dataKey != "" && toCamelCase dataKey != dataKey &&
        !startsUnderscore (toCamelCase dataKey) &&
        (self.getProp (toCamelCase dataKey)).typeof != "function" then
      some (toCamelCase dataKey)
    else none

/-- The write guardrail (line 491): a resolved target is only written if it
is truthy, not `_`-prefixed, and either equals the camelCase projection of
the raw key or the raw key has no underscore. -/
def shouldAssign (dataKey targetKey : String) : Bool :=
  targetKey != "" && !startsUnderscore targetKey &&
    (targetKey == toCamelCase dataKey || !containsUnderscore dataKey)

/-- One iteration of `init`'s key loop (lines 461-532): skip `_`-prefixed
keys and `undefined` values, resolve the target field, check the snake_case
write guardrail, then run the value pipeline. -/
def processEntry (cfg : Config) (className : String) (classFields : List String)
    (aliases : List (String × List String)) (transforms : List (String × Tf))
    (acc : Instance × List Diag) (entry : String × Value) : Instance × List Diag :=
  if startsUnderscore entry.1 then acc
  else if entry.2.isUndef then acc
  else match resolveTarget acc.1 entry.1 classFields aliases with
    | some t =>
      if shouldAssign entry.1 t then
        let step := applyPipeline cfg className transforms acc.1 t entry.2
        (step.1, acc.2 ++ step.2)
      else acc
    | none => acc

/-- Source `init` (line 445): bail out on falsy or non-object data, merge the
decorator alias/transform tables with the per-call options (options win),
snapshot the declared fields once, then process every payload entry in
order.  Returns the updated instance and the diagnostics printed. -/
def init (self : Instance) (cfg : Config) (data : Value)
    (decAliases : List (String × List String)) (decTransforms : List (String × Tf))
    (optAliases : List (String × List String)) (optTransforms : List (String × Tf))
    (className : String) : Instance × List Diag :=
  if !data.isTruthy || data.typeof != "object" then (self, [])
  else
    let aliases := mergeRecord decAliases optAliases
    let transforms := mergeRecord decTransforms optTransforms
    let classFields := getClassFields self
    data.ownEntries.foldl (processEntry cfg className classFields aliases transforms)
      (self, [])

-- ===========================================================================
-- toPlain (src/index.ts lines 539-565)
-- ===========================================================================

mutual

/-- The projection loop of `toPlain` over the declared fields (which, with
unique own-property keys, are exactly the entries passing the
`getClassFields` filter, in insertion order): skip functions and
`_`-prefixed names, convert the key when snake_case output is requested,
recurse into nested DTO values and into DTO elements of array values. -/
def toPlainFields (useSnakeCase : Bool) : List (String × Value) → List (String × Value)
  | [] => []
  | (key, value) :: rest =>
    if startsUnderscore key || value.typeof == "function" then
      toPlainFields useSnakeCase rest
    else
      let outputKey := if useSnakeCase then toSnakeCase key else key
      (outputKey, projectValue useSnakeCase value) :: toPlainFields useSnakeCase rest

/-- How one field value is transcribed: a nested DTO is projected
recursively, an array has exactly its DTO elements projected, everything
else passes through by reference. -/
def projectValue (useSnakeCase : Bool) : Value → Value
  | Value.vDto fs _ => Value.vObj (toPlainFields useSnakeCase fs)
  | Value.vArr xs => Value.vArr (projectArray useSnakeCase xs)
  | v => v

def projectArray (useSnakeCase : Bool) : List Value → List Value
  | [] => []
  | Value.vDto fs _ :: rest =>
      Value.vObj (toPlainFields useSnakeCase fs) :: projectArray useSnakeCase rest
  | x :: rest => x :: projectArray useSnakeCase rest

end

/-- Source `toPlain` (line 539). -/
def toPlain (self : Instance) (useSnakeCase : Bool) : List (String × Value) :=
  toPlainFields useSnakeCase self.fields

/-- Source `toJSON` (line 570): exactly `toPlain(false)`. -/
def toJSON (self : Instance) : List (String × Value) :=
  toPlain self false

-- ===========================================================================
-- Error-faithful populate semantics
-- ===========================================================================

/-- The value pipeline with the error path of `validateType` kept: when the
type-mismatch warning's `JSON.stringify` throws, the exception escapes —
`init`'s try/catch (lines 508-523) wraps only the transform call, and the
assignment on line 530 is never reached.  On non-throwing runs this agrees
with `applyPipeline`. -/
def applyPipelineE (cfg : Config) (className : String)
    (transforms : List (String × Tf)) (self : Instance)
    (targetKey : String) (value : Value) : Except String (Instance × List Diag) :=
  match transforms.lookup targetKey with
  | some transform =>
    match transform value with
    | Except.ok r => .ok (self.setField targetKey r, [])
    | Except.error msg =>
      .ok (self.setField targetKey value,
        if cfg.strictMode && cfg.isDev
          then [Diag.transformFailure className targetKey msg] else [])
  | none =>
    match (if (self.getProp targetKey).isUndef then Except.ok []
           else if cfg.strictMode then
             validateType cfg className targetKey value (self.getProp targetKey).typeof
           else .ok []) with
    | Except.ok diags => .ok (self.setField targetKey value, diags)
    | Except.error e => .error e

/-- One iteration of `init`'s key loop with the error path kept. -/
def processEntryE (cfg : Config) (className : String) (classFields : List String)
    (aliases : List (String × List String)) (transforms : List (String × Tf))
    (acc : Instance × List Diag) (entry : String × Value) :
    Except String (Instance × List Diag) :=
  if startsUnderscore entry.1 then .ok acc
  else if entry.2.isUndef then .ok acc
  else match resolveTarget acc.1 entry.1 classFields aliases with
    | some t =>
      if shouldAssign entry.1 t then
        match applyPipelineE cfg className transforms acc.1 t entry.2 with
        | Except.ok step => .ok (step.1, acc.2 ++ step.2)
        | Except.error e => .error e
      else .ok acc
    | none => .ok acc

/-- Source `init` with the error path kept: an `Except.error` models the
exception thrown out of a strict-mode type-mismatch warning propagating to
`init`'s caller (in constructor usage the half-populated object is then
unreachable).  On non-throwing runs this agrees with `init`
(`initE_ok_agrees` below). -/
def initE (self : Instance) (cfg : Config) (data : Value)
    (decAliases : List (String × List String)) (decTransforms : List (String × Tf))
    (optAliases : List (String × List String)) (optTransforms : List (String × Tf))
    (className : String) : Except String (Instance × List Diag) :=
  if !data.isTruthy || data.typeof != "object" then .ok (self, [])
  else
    data.ownEntries.foldlM
      (processEntryE cfg className (getClassFields self)
        (mergeRecord decAliases optAliases) (mergeRecord decTransforms optTransforms))
      (self, [])

-- ===========================================================================
-- Auxiliary predicates used by the theorems
-- ===========================================================================

/-- A primitive (non-object, non-array, non-function, defined) value. -/
def Value.isPrimitive : Value → Bool
  | .vNull => true
  | .vBool _ => true
  | .vNum _ => true
  | .vStr _ => true
  | _ => false

/-- A character admissible inside a camelCase identifier: not an underscore,
and if it is an uppercase letter it is a plain cased ASCII letter (its
lowercase form lies in `a`–`z` and uppercases back to it). -/
def camelCharOK (c : Char) : Bool :=
  c != '_' &&
    (!jsIsUpper c || (('a' ≤ c.toLower && c.toLower ≤ 'z') && c.toLower.toUpper == c))

/-- No two consecutive uppercase characters (no acronym runs). -/
def noUU : List Char → Bool
  | c1 :: c2 :: rest => !(jsIsUpper c1 && jsIsUpper c2) && noUU (c2 :: rest)
  | _ => true

/-- A camelCase field name: nonempty, does not begin with an uppercase
letter, contains no underscore, and has no two consecutive uppercase
letters. -/
def isCamelName (s : String) : Bool :=
  match s.data with
  | c :: _ => !jsIsUpper c && s.data.all camelCharOK && noUU s.data
  | [] => false

/-- Spec-side resolver, written from the specification's own wording of the
resolution order (first match wins): (1) exact match; (2) case-converted
match; (3) forward alias match — a declared field whose alias list contains
the key or its camelCase projection; (4) reverse alias scan over declared
fields; (5) fallback accepting `toCamel(k)` when it differs from `k` and is
not bound to a callable on the instance; (6) otherwise no match.  It exists
to be compared with the source-side `findMatchingField`. -/
def specResolve (self : Instance) (k : String) (declared : List String)
    (aliases : List (String × List String)) : Option String :=
  if declared.contains k then some k
  else if declared.contains (toCamelCase k) then some (toCamelCase k)
  else
    match aliases.find? (fun p => declared.contains p.1 &&
        (p.2.contains k || p.2.contains (toCamelCase k))) with
    | some p => some p.1
    | none =>
      match declared.find? (fun fieldKey =>
          match aliases.lookup fieldKey with
          | some fieldAliases =>
              fieldAliases.contains k || fieldAliases.contains (toCamelCase k)
          | none => false) with
      | some fieldKey => some fieldKey
      | none =>
        if toCamelCase k ≠ k ∧ (self.getProp (toCamelCase k)).typeof ≠ "function" then
          some (toCamelCase k)
        else none

/-- Writing a batch of key/value pairs onto an instance, in order. -/
def writeFields (i : Instance) (l : List (String × Value)) : Instance :=
  l.foldl (fun acc p => acc.setField p.1 p.2) i

/-- The effect of `Instance.setField` at the level of the own-property list. -/
def listSet (l : List (String × Value)) (k : String) (v : Value) :
    List (String × Value) :=
  if (l.lookup k).isSome then l.map (fun p => if p.1 == k then (p.1, v) else p)
  else l ++ [(k, v)]

/-- The effect of `writeFields` at the level of the own-property list. -/
def listWrite (l0 : List (String × Value)) (entries : List (String × Value)) :
    List (String × Value) :=
  entries.foldl (fun acc p => listSet acc p.1 p.2) l0

mutual

theorem Value.beq_iff : ∀ a b : Value, Value.beq a b = true ↔ a = b
  | .vUndefined, b => by cases b <;> simp [Value.beq]
  | .vNull, b => by cases b <;> simp [Value.beq]
  | .vBool a, b => by cases b <;> simp [Value.beq]
  | .vNum a, b => by cases b <;> simp [Value.beq]
  | .vBigInt a, b => by cases b <;> simp [Value.beq]
  | .vStr a, b => by cases b <;> simp [Value.beq]
  | .vObj a, b => by
      cases b <;> simp [Value.beq]
      exact Value.beqFields_iff a _
  | .vArr a, b => by
      cases b <;> simp [Value.beq]
      exact Value.beqList_iff a _
  | .vDto a ma, b => by
      cases b <;> simp [Value.beq]
      intro _
      exact Value.beqFields_iff a _
  | .vFn, b => by cases b <;> simp [Value.beq]

theorem Value.beqFields_iff : ∀ a b : List (String × Value),
    Value.beqFields a b = true ↔ a = b
  | [], b => by cases b <;> simp [Value.beqFields]
  | (k1, v1) :: r1, b => by
      cases b with
      | nil => simp [Value.beqFields]
      | cons hd tl =>
        obtain ⟨k2, v2⟩ := hd
        simp only [Value.beqFields, Bool.and_eq_true, beq_iff_eq, List.cons.injEq,
          Prod.mk.injEq]
        constructor
        · rintro ⟨⟨hk, hv⟩, hr⟩
          exact ⟨⟨hk, (Value.beq_iff v1 v2).mp hv⟩, (Value.beqFields_iff r1 tl).mp hr⟩
        · rintro ⟨⟨hk, hv⟩, hr⟩
          exact ⟨⟨hk, (Value.beq_iff v1 v2).mpr hv⟩, (Value.beqFields_iff r1 tl).mpr hr⟩

theorem Value.beqList_iff : ∀ a b : List Value, Value.beqList a b = true ↔ a = b
  | [], b => by cases b <;> simp [Value.beqList]
  | v1 :: r1, b => by
      cases b with
      | nil => simp [Value.beqList]
      | cons hd tl =>
        simp only [Value.beqList, Bool.and_eq_true, List.cons.injEq]
        constructor
        · rintro ⟨hv, hr⟩
          exact ⟨(Value.beq_iff v1 hd).mp hv, (Value.beqList_iff r1 tl).mp hr⟩
        · rintro ⟨hv, hr⟩
          exact ⟨(Value.beq_iff v1 hd).mpr hv, (Value.beqList_iff r1 tl).mpr hr⟩

end

instance : DecidableEq Value := fun a b =>
  decidable_of_iff (Value.beq a b = true) (Value.beq_iff a b)

instance : DecidableEq Instance := fun a b =>
  decidable_of_iff (a.fields = b.fields ∧ a.methods = b.methods)
    (by cases a; cases b; simp)

-- ===========================================================================
-- Case-converter lemmas
-- ===========================================================================

theorem camelChars_cons_of_ne (c : Char) (rest : List Char) (h : c ≠ '_') :
    camelChars (c :: rest) = c :: camelChars rest := by
  rw [camelChars.eq_def]
  simp [h]

theorem camelChars_underscore_lower (d : Char) (rest : List Char)
    (h1 : 'a' ≤ d) (h2 : d ≤ 'z') :
    camelChars ('_' :: d :: rest) = d.toUpper :: camelChars rest := by
  rw [camelChars.eq_def]
  simp [h1, h2]

theorem camelChars_of_all_ne : ∀ cs : List Char, (∀ c ∈ cs, c ≠ '_') →
    camelChars cs = cs
  | [], _ => rfl
  | c :: rest, h => by
      rw [camelChars_cons_of_ne c rest (h c (List.mem_cons_self c rest))]
      rw [camelChars_of_all_ne rest (fun d hd => h d (List.mem_cons_of_mem c hd))]

theorem camelChars_underscore_notlower (d : Char) (rest : List Char)
    (h : ¬('a' ≤ d ∧ d ≤ 'z')) :
    camelChars ('_' :: d :: rest) = '_' :: camelChars (d :: rest) := by
  rw [camelChars.eq_def]
  simp [h]

theorem camelChars_ne_nil : ∀ cs : List Char, cs ≠ [] → camelChars cs ≠ []
  | [], h => absurd rfl h
  | c :: rest, _ => by
      by_cases hc : c = '_'
      · subst hc
        cases rest with
        | nil => decide
        | cons d rest2 =>
          by_cases hd : 'a' ≤ d ∧ d ≤ 'z'
          · rw [camelChars_underscore_lower d rest2 hd.1 hd.2]
            simp
          · rw [camelChars_underscore_notlower d rest2 hd]
            simp
      · rw [camelChars_cons_of_ne c rest hc]
        simp

theorem snakeChars_cons_of_not_upper (prev : Option Char) (c : Char)
    (rest : List Char) (h : jsIsUpper c = false) :
    snakeChars prev (c :: rest) = c :: snakeChars (some c) rest := by
  simp [snakeChars, h]

theorem snakeChars_cons_of_upper (p c : Char) (rest : List Char)
    (hc : jsIsUpper c = true) (hp : jsIsUpper p = false) :
    snakeChars (some p) (c :: rest) = '_' :: c.toLower :: snakeChars (some c) rest := by
  simp [snakeChars, hc, hp]

theorem noUU_tail : ∀ (c : Char) (rest : List Char), noUU (c :: rest) = true →
    noUU rest = true
  | _, [], _ => rfl
  | c, d :: t, h => by
      simp only [noUU, Bool.and_eq_true] at h
      exact h.2

theorem camelCharOK_ne (c : Char) (h : camelCharOK c = true) : c ≠ '_' := by
  simp only [camelCharOK, Bool.and_eq_true, bne_iff_ne, ne_eq] at h
  exact h.1

theorem camelCharOK_upper (c : Char) (h : camelCharOK c = true)
    (hu : jsIsUpper c = true) :
    ('a' ≤ c.toLower ∧ c.toLower ≤ 'z') ∧ c.toLower.toUpper = c := by
  simp only [camelCharOK, Bool.and_eq_true, bne_iff_ne, ne_eq, Bool.or_eq_true,
    Bool.not_eq_true', beq_iff_eq, decide_eq_true_eq] at h
  rcases h.2 with h2 | h2
  · rw [hu] at h2
    exact absurd h2 (by simp)
  · exact h2

/-- Core of the snake/camel round trip: on a run of admissible characters
with no two consecutive uppercase letters (also across the boundary with the
previous character `p`), `toSnakeCase`'s walk followed by `toCamelCase`'s
rewrite restores the run. -/
theorem camelChars_snakeChars : ∀ (cs : List Char) (p : Char),
    cs.all camelCharOK = true → noUU cs = true →
    (∀ c0 ∈ cs.head?, jsIsUpper c0 = true → jsIsUpper p = false) →
    camelChars (snakeChars (some p) cs) = cs
  | [], _, _, _, _ => rfl
  | c :: rest, p, hall, huu, hb => by
      simp only [List.all_cons, Bool.and_eq_true] at hall
      obtain ⟨hcOK, hrest⟩ := hall
      have hbnext : ∀ c0 ∈ rest.head?, jsIsUpper c0 = true → jsIsUpper c = false := by
        intro c0 hc0 hup0
        cases rest with
        | nil => simp at hc0
        | cons d t =>
          simp only [List.head?_cons, Option.mem_def, Option.some.injEq] at hc0
          subst hc0
          simp only [noUU, Bool.and_eq_true, Bool.not_eq_true',
            Bool.and_eq_false_iff] at huu
          rcases huu.1 with h | h
          · exact h
          · rw [h] at hup0
            exact absurd hup0 (by simp)
      by_cases hc : jsIsUpper c = true
      · have hp : jsIsUpper p = false := hb c (by simp) hc
        rw [snakeChars_cons_of_upper p c rest hc hp]
        obtain ⟨⟨hr1, hr2⟩, hrt⟩ := camelCharOK_upper c hcOK hc
        rw [camelChars_underscore_lower _ _ hr1 hr2, hrt,
          camelChars_snakeChars rest c hrest (noUU_tail c rest huu) hbnext]
      · have hc' : jsIsUpper c = false := by
          cases h : jsIsUpper c
          · rfl
          · exact absurd h hc
        rw [snakeChars_cons_of_not_upper (some p) c rest hc']
        rw [camelChars_cons_of_ne c _ (camelCharOK_ne c hcOK)]
        rw [camelChars_snakeChars rest c hrest (noUU_tail c rest huu)
          (fun c0 _ _ => hc')]

theorem string_mk_data (s : String) : String.mk s.data = s := rfl

theorem string_ne_empty_of_data_cons (s : String) (c : Char) (rest : List Char)
    (h : s.data = c :: rest) : s ≠ "" := by
  intro heq
  rw [heq] at h
  exact absurd h (by simp)

theorem string_mk_cons_ne_empty (c : Char) (rest : List Char) :
    String.mk (c :: rest) ≠ "" := by
  intro h
  have : (String.mk (c :: rest)).data = ("" : String).data := by rw [h]
  exact absurd this (by simp)

theorem isCamelName_destruct (s : String) (c : Char) (rest : List Char)
    (hd : s.data = c :: rest) (h : isCamelName s = true) :
    jsIsUpper c = false ∧ (c :: rest).all camelCharOK = true ∧
      noUU (c :: rest) = true := by
  unfold isCamelName at h
  rw [hd] at h
  simp only [Bool.and_eq_true, Bool.not_eq_true'] at h
  exact ⟨h.1.1, h.1.2, h.2⟩

/-- For a camelCase name, `toCamelCase` after `toSnakeCase` restores the
name. -/
theorem toCamel_toSnake (s : String) (h : isCamelName s = true) :
    toCamelCase (toSnakeCase s) = s := by
  cases hd : s.data with
  | nil =>
    unfold isCamelName at h
    rw [hd] at h
    exact absurd h (by simp)
  | cons c rest =>
    obtain ⟨hc, hall, huu⟩ := isCamelName_destruct s c rest hd h
    have hne : s ≠ "" := string_ne_empty_of_data_cons s c rest hd
    have hallc : camelCharOK c = true ∧ rest.all camelCharOK = true := by
      simpa [List.all_cons, Bool.and_eq_true] using hall
    have hcnu : c ≠ '_' := camelCharOK_ne c hallc.1
    simp only [toSnakeCase, if_neg hne]
    rw [hd, snakeChars_cons_of_not_upper none c rest hc]
    simp only [toCamelCase, if_neg (string_mk_cons_ne_empty c _)]
    show String.mk (camelChars (c :: snakeChars (some c) rest)) = s
    rw [camelChars_cons_of_ne c _ hcnu,
      camelChars_snakeChars rest c hallc.2 (noUU_tail c rest huu) (fun c0 _ _ => hc),
      ← hd]

/-- A camelCase name contains no underscore, so `toCamelCase` leaves it
unchanged. -/
theorem toCamel_of_camelName (s : String) (h : isCamelName s = true) :
    toCamelCase s = s := by
  by_cases hne : s = ""
  · rw [hne]
    rfl
  · have hforall : ∀ c ∈ s.data, c ≠ '_' := by
      intro c hc
      cases hd : s.data with
      | nil =>
        rw [hd] at hc
        exact absurd hc (by simp)
      | cons c0 rest =>
        obtain ⟨_, hall, _⟩ := isCamelName_destruct s c0 rest hd h
        rw [hd] at hc
        exact camelCharOK_ne c (List.all_eq_true.mp hall c hc)
    simp only [toCamelCase, if_neg hne]
    rw [camelChars_of_all_ne s.data hforall]

-- ===========================================================================
-- Operational lemmas about the populate pipeline
-- ===========================================================================

theorem applyPipeline_fst (cfg : Config) (cn : String) (tf : List (String × Tf))
    (self : Instance) (t : String) (v : Value) :
    (applyPipeline cfg cn tf self t v).1 =
      self.setField t (match tf.lookup t with
        | some f => match f v with
          | .ok r => r
          | .error _ => v
        | none => v) := by
  unfold applyPipeline
  cases htf : tf.lookup t with
  | none => simp [htf]
  | some f => cases hfv : f v <;> simp [htf, hfv]

theorem processEntry_undefined (cfg : Config) (cn : String) (cf : List String)
    (al : List (String × List String)) (tf : List (String × Tf))
    (acc : Instance × List Diag) (k : String) :
    processEntry cfg cn cf al tf acc (k, Value.vUndefined) = acc := by
  simp [processEntry, Value.isUndef]

theorem init_object (self : Instance) (cfg : Config) (es : List (String × Value))
    (decA optA : List (String × List String)) (decT optT : List (String × Tf))
    (cn : String) :
    init self cfg (Value.vObj es) decA decT optA optT cn =
      es.foldl (processEntry cfg cn (getClassFields self)
        (mergeRecord decA optA) (mergeRecord decT optT)) (self, []) := rfl

theorem validateTypeDiags_mem (cfg : Config) (cn k : String) (v : Value) (et : String)
    (d : Diag) (h : d ∈ validateTypeDiags cfg cn k v et) :
    d = Diag.typeMismatch cn k et v.typeof := by
  unfold validateTypeDiags at h
  split at h
  · exact absurd h (List.not_mem_nil d)
  · split at h
    · split at h
      · simp only [List.mem_singleton] at h
        exact h
      · exact absurd h (List.not_mem_nil d)
    · exact absurd h (List.not_mem_nil d)

theorem applyPipeline_snd_transform (cfg : Config) (cn : String)
    (tf : List (String × Tf)) (self : Instance) (t : String) (v : Value)
    (f : Tf) (htf : tf.lookup t = some f) :
    (applyPipeline cfg cn tf self t v).2 =
      (match f v with
       | .ok _ => []
       | .error m =>
           if cfg.strictMode && cfg.isDev then [Diag.transformFailure cn t m] else []) := by
  unfold applyPipeline
  cases hfv : f v <;> simp [htf, hfv]

theorem applyPipeline_snd_no_transform (cfg : Config) (cn : String)
    (tf : List (String × Tf)) (self : Instance) (t : String) (v : Value)
    (htf : tf.lookup t = none) :
    (applyPipeline cfg cn tf self t v).2 =
      (if (self.getProp t).isUndef then []
       else if cfg.strictMode then validateTypeDiags cfg cn t v (self.getProp t).typeof
       else []) := by
  unfold applyPipeline
  by_cases hu : (self.getProp t).isUndef = true <;> simp [htf, hu]

theorem processEntry_skip_underscore (cfg : Config) (cn : String) (cf : List String)
    (al : List (String × List String)) (tf : List (String × Tf))
    (acc : Instance × List Diag) (e : String × Value)
    (h1 : startsUnderscore e.1 = true) :
    processEntry cfg cn cf al tf acc e = acc := by
  unfold processEntry
  simp [h1]

theorem processEntry_skip_undef (cfg : Config) (cn : String) (cf : List String)
    (al : List (String × List String)) (tf : List (String × Tf))
    (acc : Instance × List Diag) (e : String × Value)
    (h2 : e.2.isUndef = true) :
    processEntry cfg cn cf al tf acc e = acc := by
  unfold processEntry
  simp [h2]

theorem processEntry_skip_none (cfg : Config) (cn : String) (cf : List String)
    (al : List (String × List String)) (tf : List (String × Tf))
    (self : Instance) (ds : List Diag) (e : String × Value)
    (h1 : ¬startsUnderscore e.1 = true) (h2 : ¬e.2.isUndef = true)
    (htk : resolveTarget self e.1 cf al = none) :
    processEntry cfg cn cf al tf (self, ds) e = (self, ds) := by
  unfold processEntry
  simp [h1, h2, htk]

theorem processEntry_skip_guard (cfg : Config) (cn : String) (cf : List String)
    (al : List (String × List String)) (tf : List (String × Tf))
    (self : Instance) (ds : List Diag) (e : String × Value) (t : String)
    (h1 : ¬startsUnderscore e.1 = true) (h2 : ¬e.2.isUndef = true)
    (htk : resolveTarget self e.1 cf al = some t)
    (hsa : ¬shouldAssign e.1 t = true) :
    processEntry cfg cn cf al tf (self, ds) e = (self, ds) := by
  unfold processEntry
  simp [h1, h2, htk, hsa]

theorem processEntry_assign (cfg : Config) (cn : String) (cf : List String)
    (al : List (String × List String)) (tf : List (String × Tf))
    (self : Instance) (ds : List Diag) (e : String × Value) (t : String)
    (h1 : ¬startsUnderscore e.1 = true) (h2 : ¬e.2.isUndef = true)
    (htk : resolveTarget self e.1 cf al = some t)
    (hsa : shouldAssign e.1 t = true) :
    processEntry cfg cn cf al tf (self, ds) e =
      ((applyPipeline cfg cn tf self t e.2).1,
       ds ++ (applyPipeline cfg cn tf self t e.2).2) := by
  unfold processEntry
  simp [h1, h2, htk, hsa]

theorem applyPipeline_no_typeMismatch (cfg : Config) (cn : String)
    (tf : List (String × Tf)) (self : Instance) (tk : String) (v : Value)
    (f : String) (g : Tf) (hreg : tf.lookup f = some g)
    (cn2 ex ac : String) :
    Diag.typeMismatch cn2 f ex ac ∉ (applyPipeline cfg cn tf self tk v).2 := by
  intro hmem
  cases htf : tf.lookup tk with
  | some h =>
    rw [applyPipeline_snd_transform cfg cn tf self tk v h htf] at hmem
    cases hv : h v with
    | ok r =>
      rw [hv] at hmem
      simp at hmem
    | error m =>
      rw [hv] at hmem
      by_cases hsd : (cfg.strictMode && cfg.isDev) = true
      · simp [hsd] at hmem
      · simp [hsd] at hmem
  | none =>
    rw [applyPipeline_snd_no_transform cfg cn tf self tk v htf] at hmem
    split at hmem
    · exact absurd hmem (List.not_mem_nil _)
    · split at hmem
      · have heq := validateTypeDiags_mem cfg cn tk v _ _ hmem
        have hft : f = tk := by
          injection heq
        rw [hft, htf] at hreg
        exact absurd hreg (by simp)
      · exact absurd hmem (List.not_mem_nil _)

theorem processEntry_snd_mem (cfg : Config) (cn : String) (cf : List String)
    (al : List (String × List String)) (tf : List (String × Tf))
    (self : Instance) (ds : List Diag) (e : String × Value) (d : Diag)
    (h : d ∈ (processEntry cfg cn cf al tf (self, ds) e).2) :
    d ∈ ds ∨ ∃ tk, d ∈ (applyPipeline cfg cn tf self tk e.2).2 := by
  by_cases h1 : startsUnderscore e.1 = true
  · rw [processEntry_skip_underscore cfg cn cf al tf (self, ds) e h1] at h
    exact Or.inl h
  · by_cases h2 : e.2.isUndef = true
    · rw [processEntry_skip_undef cfg cn cf al tf (self, ds) e h2] at h
      exact Or.inl h
    · cases htk : resolveTarget self e.1 cf al with
      | none =>
        rw [processEntry_skip_none cfg cn cf al tf self ds e h1 h2 htk] at h
        exact Or.inl h
      | some t =>
        by_cases hsa : shouldAssign e.1 t = true
        · rw [processEntry_assign cfg cn cf al tf self ds e t h1 h2 htk hsa] at h
          simp only [List.mem_append] at h
          rcases h with h | h
          · exact Or.inl h
          · exact Or.inr ⟨t, h⟩
        · rw [processEntry_skip_guard cfg cn cf al tf self ds e t h1 h2 htk hsa] at h
          exact Or.inl h

theorem foldl_no_typeMismatch (cfg : Config) (cn : String) (cf : List String)
    (al : List (String × List String)) (tf : List (String × Tf))
    (f : String) (g : Tf) (hreg : tf.lookup f = some g) (cn2 ex ac : String) :
    ∀ (es : List (String × Value)) (self : Instance) (ds : List Diag),
    Diag.typeMismatch cn2 f ex ac ∉ ds →
    Diag.typeMismatch cn2 f ex ac ∉
      (es.foldl (processEntry cfg cn cf al tf) (self, ds)).2
  | [], _, _, hds => hds
  | e :: es, self, ds, hds => by
      simp only [List.foldl_cons]
      rw [show processEntry cfg cn cf al tf (self, ds) e =
            ((processEntry cfg cn cf al tf (self, ds) e).1,
             (processEntry cfg cn cf al tf (self, ds) e).2) from rfl]
      apply foldl_no_typeMismatch cfg cn cf al tf f g hreg cn2 ex ac es
      intro hmem
      rcases processEntry_snd_mem cfg cn cf al tf self ds e _ hmem with h | ⟨tk, h⟩
      · exact hds h
      · exact applyPipeline_no_typeMismatch cfg cn tf self tk e.2 f g hreg cn2 ex ac h

theorem data_eq_nil_imp (s : String) (h : s.data = []) : s = "" := by
  have h2 := string_mk_data s
  rw [h] at h2
  exact h2.symm

theorem toCamelCase_ne_empty (k : String) (h : k ≠ "") : toCamelCase k ≠ "" := by
  unfold toCamelCase
  rw [if_neg h]
  intro hmk
  have hdata : camelChars k.data = [] := by
    have : (String.mk (camelChars k.data)).data = ("" : String).data := by rw [hmk]
    simpa using this
  have hk : k.data ≠ [] := fun hnil => h (data_eq_nil_imp k hnil)
  exact camelChars_ne_nil k.data hk hdata

theorem startsUnderscore_mk_cons_ne (c : Char) (l : List Char) (h : c ≠ '_') :
    startsUnderscore (String.mk (c :: l)) = false := by
  unfold startsUnderscore
  simp [h]

theorem startsUnderscore_data_head (s : String) (c : Char) (rest : List Char)
    (hd : s.data = c :: rest) (h : startsUnderscore s = false) : c ≠ '_' := by
  intro hc
  subst hc
  unfold startsUnderscore at h
  rw [hd] at h
  simp at h

theorem startsUnderscore_toCamel (k : String) (h : startsUnderscore k = false) :
    startsUnderscore (toCamelCase k) = false := by
  cases hd : k.data with
  | nil =>
    have : k = "" := data_eq_nil_imp k hd
    rw [this]
    rfl
  | cons c rest =>
    have hc : c ≠ '_' := startsUnderscore_data_head k c rest hd h
    have hne : k ≠ "" := string_ne_empty_of_data_cons k c rest hd
    unfold toCamelCase
    rw [if_neg hne, hd, camelChars_cons_of_ne c rest hc]
    exact startsUnderscore_mk_cons_ne c _ hc


theorem step5_eq (self : Instance) (k : String) (h : startsUnderscore k = false) :
    (if (toCamelCase k != "" && toCamelCase k != k && !startsUnderscore (toCamelCase k) &&
        (self.getProp (toCamelCase k)).typeof != "function") = true
     then some (toCamelCase k) else none)
    = (if toCamelCase k ≠ k ∧ (self.getProp (toCamelCase k)).typeof ≠ "function"
       then some (toCamelCase k) else none) := by
  by_cases hck : toCamelCase k = k
  · rw [if_neg (by simp [hck]), if_neg (fun hand => hand.1 hck)]
  · by_cases hgf : (self.getProp (toCamelCase k)).typeof = "function"
    · rw [if_neg (by simp [hgf]), if_neg (fun hand => hand.2 hgf)]
    · have hkne : k ≠ "" := by
        intro hke
        apply hck
        rw [hke]
        rfl
      have hne : toCamelCase k ≠ "" := toCamelCase_ne_empty k hkne
      have hsu : startsUnderscore (toCamelCase k) = false := startsUnderscore_toCamel k h
      have hB : (toCamelCase k != "" && toCamelCase k != k &&
          !startsUnderscore (toCamelCase k) &&
          (self.getProp (toCamelCase k)).typeof != "function") = true := by
        simp only [Bool.and_eq_true, bne_iff_ne, ne_eq, Bool.not_eq_true']
        exact ⟨⟨⟨hne, hck⟩, hsu⟩, hgf⟩
      rw [if_pos hB, if_pos ⟨hck, hgf⟩]

theorem findMatchingField_eq_spec (self : Instance) (k : String)
    (cf : List String) (al : List (String × List String))
    (h : startsUnderscore k = false) :
    findMatchingField self k cf al = specResolve self k cf al := by
  unfold findMatchingField specResolve
  by_cases hcf : cf.contains k = true
  · rw [if_pos hcf, if_pos hcf]
  · rw [if_neg hcf, if_neg hcf]
    by_cases hcam : cf.contains (toCamelCase k) = true
    · rw [if_pos hcam, if_pos hcam]
    · rw [if_neg hcam, if_neg hcam]
      cases hfind : al.find? (fun p => cf.contains p.1 &&
          (p.2.contains k || p.2.contains (toCamelCase k))) with
      | some p => rfl
      | none =>
        cases hfind2 : cf.find? (fun fieldKey =>
            match al.lookup fieldKey with
            | some fieldAliases =>
                fieldAliases.contains k || fieldAliases.contains (toCamelCase k)
            | none => false) with
        | some fk => rfl
        | none => exact step5_eq self k h

theorem findMatchingField_none_fallback (self : Instance) (k : String)
    (cf : List String) (al : List (String × List String))
    (h : findMatchingField self k cf al = none) :
    (toCamelCase k != "" && toCamelCase k != k && !startsUnderscore (toCamelCase k) &&
      (self.getProp (toCamelCase k)).typeof != "function") = false := by
  cases hB : (toCamelCase k != "" && toCamelCase k != k &&
      !startsUnderscore (toCamelCase k) &&
      (self.getProp (toCamelCase k)).typeof != "function") with
  | false => rfl
  | true =>
    exfalso
    unfold findMatchingField at h
    by_cases hcf : cf.contains k = true
    · rw [if_pos hcf] at h
      exact absurd h (by simp)
    · rw [if_neg hcf] at h
      by_cases hcam : cf.contains (toCamelCase k) = true
      · rw [if_pos hcam] at h
        exact absurd h (by simp)
      · rw [if_neg hcam] at h
        cases hfind : al.find? (fun p => cf.contains p.1 &&
            (p.2.contains k || p.2.contains (toCamelCase k))) with
        | some p =>
          rw [hfind] at h
          simp at h
        | none =>
          rw [hfind] at h
          cases hfind2 : cf.find? (fun fieldKey =>
              match al.lookup fieldKey with
              | some fieldAliases =>
                  fieldAliases.contains k || fieldAliases.contains (toCamelCase k)
              | none => false) with
          | some fk =>
            rw [hfind2] at h
            simp at h
          | none =>
            rw [hfind2, if_pos hB] at h
            simp at h

theorem resolveTarget_of_findSome (self : Instance) (k : String)
    (cf : List String) (al : List (String × List String)) (t : String)
    (h : findMatchingField self k cf al = some t) (ht : t ≠ "") :
    resolveTarget self k cf al = some t := by
  unfold resolveTarget
  rw [h]
  simp [ht]

theorem resolveTarget_none (self : Instance) (k : String) (cf : List String)
    (al : List (String × List String))
    (h : findMatchingField self k cf al = none) :
    resolveTarget self k cf al = none := by
  unfold resolveTarget
  rw [h, findMatchingField_none_fallback self k cf al h]
  rfl

theorem isCamelName_ne_empty (s : String) (h : isCamelName s = true) : s ≠ "" := by
  cases hd : s.data with
  | nil =>
    unfold isCamelName at h
    rw [hd] at h
    exact absurd h (by simp)
  | cons c rest => exact string_ne_empty_of_data_cons s c rest hd

theorem startsUnderscore_of_data_cons (s : String) (c : Char) (rest : List Char)
    (hd : s.data = c :: rest) (hc : c ≠ '_') : startsUnderscore s = false := by
  unfold startsUnderscore
  rw [hd]
  simp [hc]

theorem isCamelName_startsUnderscore (s : String) (h : isCamelName s = true) :
    startsUnderscore s = false := by
  cases hd : s.data with
  | nil =>
    have hs : s = "" := data_eq_nil_imp s hd
    rw [hs]
    rfl
  | cons c rest =>
    obtain ⟨_, hall, _⟩ := isCamelName_destruct s c rest hd h
    have hcOK : camelCharOK c = true := by
      simp only [List.all_cons, Bool.and_eq_true] at hall
      exact hall.1
    exact startsUnderscore_of_data_cons s c rest hd (camelCharOK_ne c hcOK)

theorem toSnakeCase_startsUnderscore (s : String) (h : isCamelName s = true) :
    startsUnderscore (toSnakeCase s) = false := by
  cases hd : s.data with
  | nil =>
    have hs : s = "" := data_eq_nil_imp s hd
    rw [hs]
    rfl
  | cons c rest =>
    obtain ⟨hcup, hall, _⟩ := isCamelName_destruct s c rest hd h
    have hcOK : camelCharOK c = true := by
      simp only [List.all_cons, Bool.and_eq_true] at hall
      exact hall.1
    have hne : s ≠ "" := string_ne_empty_of_data_cons s c rest hd
    unfold toSnakeCase
    rw [if_neg hne, hd, snakeChars_cons_of_not_upper none c rest hcup]
    exact startsUnderscore_mk_cons_ne c _ (camelCharOK_ne c hcOK)

theorem isPrimitive_not_undef : ∀ v : Value, v.isPrimitive = true → v.isUndef = false
  | .vNull, _ => rfl
  | .vBool _, _ => rfl
  | .vNum _, _ => rfl
  | .vStr _, _ => rfl
  | .vUndefined, h => by simp [Value.isPrimitive] at h
  | .vObj _, h => by simp [Value.isPrimitive] at h
  | .vArr _, h => by simp [Value.isPrimitive] at h
  | .vDto _ _, h => by simp [Value.isPrimitive] at h
  | .vFn, h => by simp [Value.isPrimitive] at h

theorem isPrimitive_typeof_ne_fn : ∀ v : Value, v.isPrimitive = true →
    v.typeof ≠ "function"
  | .vNull, _ => by simp [Value.typeof]
  | .vBool _, _ => by simp [Value.typeof]
  | .vNum _, _ => by simp [Value.typeof]
  | .vStr _, _ => by simp [Value.typeof]
  | .vUndefined, h => by simp [Value.isPrimitive] at h
  | .vObj _, h => by simp [Value.isPrimitive] at h
  | .vArr _, h => by simp [Value.isPrimitive] at h
  | .vDto _ _, h => by simp [Value.isPrimitive] at h
  | .vFn, h => by simp [Value.isPrimitive] at h

theorem projectValue_primitive (us : Bool) : ∀ v : Value, v.isPrimitive = true →
    projectValue us v = v
  | .vNull, _ => rfl
  | .vBool _, _ => rfl
  | .vNum _, _ => rfl
  | .vStr _, _ => rfl
  | .vUndefined, h => by simp [Value.isPrimitive] at h
  | .vObj _, h => by simp [Value.isPrimitive] at h
  | .vArr _, h => by simp [Value.isPrimitive] at h
  | .vDto _ _, h => by simp [Value.isPrimitive] at h
  | .vFn, h => by simp [Value.isPrimitive] at h

theorem toPlainFields_primitive (us : Bool) : ∀ (l : List (String × Value)),
    (∀ p ∈ l, startsUnderscore p.1 = false ∧ p.2.isPrimitive = true) →
    toPlainFields us l = l.map (fun p => ((if us then toSnakeCase p.1 else p.1), p.2))
  | [], _ => rfl
  | (k, v) :: rest, h => by
      obtain ⟨hk, hv⟩ := h (k, v) (by simp)
      have htf : (v.typeof == "function") = false := by
        simp [isPrimitive_typeof_ne_fn v hv]
      rw [toPlainFields]
      rw [if_neg (by simp [hk, htf])]
      rw [projectValue_primitive us v hv,
        toPlainFields_primitive us rest (fun p hp => h p (by simp [hp]))]
      rfl

theorem getClassFields_eq_keys (l : List (String × Value)) (ms : List String)
    (h : ∀ p ∈ l, startsUnderscore p.1 = false ∧ p.2.typeof ≠ "function") :
    getClassFields ⟨l, ms⟩ = l.map Prod.fst := by
  unfold getClassFields
  have hf : l.filter fieldEntryOk = l := by
    apply List.filter_eq_self.mpr
    intro p hp
    obtain ⟨h1, h2⟩ := h p hp
    simp [fieldEntryOk, h1, h2]
  rw [hf]

theorem map_update_no_key (k : String) (v : Value) : ∀ (t0 : List (String × Value)),
    (∀ p ∈ t0, p.1 ≠ k) →
    t0.map (fun p => if p.1 == k then (p.1, v) else p) = t0
  | [], _ => rfl
  | p :: rest, h => by
      have hp : p.1 ≠ k := h p (by simp)
      simp only [List.map_cons, if_neg (by simp [hp] : ¬((p.1 == k) = true))]
      rw [map_update_no_key k v rest (fun q hq => h q (by simp [hq]))]

theorem listSet_head_hit (k : String) (w v : Value) (t0 : List (String × Value))
    (hnot : ∀ p ∈ t0, p.1 ≠ k) :
    listSet ((k, w) :: t0) k v = (k, v) :: t0 := by
  unfold listSet
  have hl : (((k, w) :: t0).lookup k).isSome = true := by
    simp [List.lookup]
  rw [if_pos hl]
  simp only [List.map_cons]
  rw [if_pos (by simp : (((k, w) : String × Value).1 == k) = true)]
  rw [map_update_no_key k v t0 hnot]

theorem listSet_cons_ne (k : String) (w : Value) (t0 : List (String × Value))
    (k2 : String) (v2 : Value) (h : k2 ≠ k) :
    listSet ((k, w) :: t0) k2 v2 = (k, w) :: listSet t0 k2 v2 := by
  unfold listSet
  have hbeq : (k2 == k) = false := by simp [h]
  have hl : ((k, w) :: t0).lookup k2 = t0.lookup k2 := by
    simp [List.lookup, hbeq]
  rw [hl]
  cases hs : (t0.lookup k2).isSome with
  | true =>
    rw [if_pos rfl, if_pos rfl]
    simp only [List.map_cons]
    rw [if_neg (by simp [Ne.symm h] : ¬((((k, w) : String × Value).1 == k2) = true))]
  | false =>
    rw [if_neg (by simp), if_neg (by simp)]
    rfl

theorem listWrite_cons_ne (k : String) (w : Value) :
    ∀ (l : List (String × Value)) (t0 : List (String × Value)),
    (∀ p ∈ l, p.1 ≠ k) →
    listWrite ((k, w) :: t0) l = (k, w) :: listWrite t0 l
  | [], _, _ => rfl
  | (k2, v2) :: rest, t0, h => by
      unfold listWrite
      simp only [List.foldl_cons]
      rw [listSet_cons_ne k w t0 k2 v2 (h (k2, v2) (by simp))]
      exact listWrite_cons_ne k w rest (listSet t0 k2 v2) (fun p hp => h p (by simp [hp]))

theorem listWrite_eq : ∀ (l l0 : List (String × Value)),
    l0.map Prod.fst = l.map Prod.fst → (l.map Prod.fst).Nodup →
    listWrite l0 l = l
  | [], l0, hk, _ => by
      cases l0 with
      | nil => rfl
      | cons p t => simp at hk
  | (k, v) :: l2, l0, hk, hnd => by
      cases l0 with
      | nil => simp at hk
      | cons p0 t0 =>
        obtain ⟨k0, w0⟩ := p0
        simp only [List.map_cons, List.cons.injEq] at hk
        obtain ⟨hk0, hk2⟩ := hk
        subst hk0
        simp only [List.map_cons, List.nodup_cons] at hnd
        obtain ⟨hkn, hnd2⟩ := hnd
        have ht0 : ∀ p ∈ t0, p.1 ≠ k0 := by
          intro p hp hpk
          apply hkn
          rw [← hk2, ← hpk]
          exact List.mem_map_of_mem Prod.fst hp
        have hl2 : ∀ p ∈ l2, p.1 ≠ k0 := by
          intro p hp hpk
          apply hkn
          rw [← hpk]
          exact List.mem_map_of_mem Prod.fst hp
        unfold listWrite
        simp only [List.foldl_cons]
        rw [listSet_head_hit k0 w0 v t0 ht0]
        show listWrite ((k0, v) :: t0) l2 = (k0, v) :: l2
        rw [listWrite_cons_ne k0 v l2 t0 hl2]
        rw [listWrite_eq l2 t0 hk2 hnd2]

theorem setField_mk (l : List (String × Value)) (ms : List String) (k : String)
    (v : Value) :
    (Instance.mk l ms).setField k v = Instance.mk (listSet l k v) ms := by
  unfold Instance.setField listSet
  split
  · rfl
  · rfl

theorem writeFields_mk (ms : List String) :
    ∀ (entries : List (String × Value)) (l0 : List (String × Value)),
    writeFields (Instance.mk l0 ms) entries = Instance.mk (listWrite l0 entries) ms
  | [], _ => rfl
  | e :: rest, l0 => by
      show writeFields ((Instance.mk l0 ms).setField e.1 e.2) rest =
        Instance.mk (listWrite (listSet l0 e.1 e.2) rest) ms
      rw [setField_mk]
      exact writeFields_mk ms rest (listSet l0 e.1 e.2)

theorem foldl_snake (cfg : Config) (cn : String) (CF : List String)
    (al : List (String × List String)) (tf : List (String × Tf)) :
    ∀ (l : List (String × Value)) (cur : Instance) (ds : List Diag),
    (∀ p ∈ l, isCamelName p.1 = true ∧ p.2.isPrimitive = true ∧
       CF.contains p.1 = true ∧ tf.lookup p.1 = none ∧
       (toSnakeCase p.1 = p.1 ∨ CF.contains (toSnakeCase p.1) = false)) →
    ((l.map (fun p => (toSnakeCase p.1, p.2))).foldl
        (processEntry cfg cn CF al tf) (cur, ds)).1
      = writeFields cur l
  | [], _, _, _ => rfl
  | (k, v) :: rest, cur, ds, h => by
      obtain ⟨hcam, hprim, hcf, htfk, hnc⟩ := h (k, v) (by simp)
      simp only [List.map_cons, List.foldl_cons]
      have hrt := toCamel_toSnake k hcam
      have hfmf : findMatchingField cur (toSnakeCase k) CF al = some k := by
        unfold findMatchingField
        rcases hnc with hnc | hnc
        · rw [hnc, if_pos hcf]
        · rw [if_neg (fun hc => by rw [hnc] at hc; exact absurd hc (by simp)), hrt,
            if_pos hcf]
      have hres : resolveTarget cur (toSnakeCase k) CF al = some k :=
        resolveTarget_of_findSome cur (toSnakeCase k) CF al k hfmf
          (isCamelName_ne_empty k hcam)
      have hsa : shouldAssign (toSnakeCase k) k = true := by
        unfold shouldAssign
        simp only [Bool.and_eq_true, Bool.or_eq_true, bne_iff_ne, ne_eq,
          beq_iff_eq, Bool.not_eq_true']
        exact ⟨⟨isCamelName_ne_empty k hcam, isCamelName_startsUnderscore k hcam⟩,
          Or.inl hrt.symm⟩
      rw [processEntry_assign cfg cn CF al tf cur ds (toSnakeCase k, v) k
        (by simp [toSnakeCase_startsUnderscore k hcam])
        (by simp [isPrimitive_not_undef v hprim]) hres hsa]
      have hap : (applyPipeline cfg cn tf cur k v).1 = cur.setField k v := by
        rw [applyPipeline_fst, htfk]
      rw [hap]
      rw [foldl_snake cfg cn CF al tf rest (cur.setField k v) _
        (fun p hp => h p (by simp [hp]))]
      rfl


-- ===========================================================================
-- The claims
-- ===========================================================================

/-- C1: for every declared field written in camelCase and its snake_case
spelling, `toCamelCase` applied to the snake_case spelling yields the
camelCase spelling back, and populating an instance with the single-key
payload under either spelling produces the same final instance state and
diagnostics, whatever aliases, transforms and strictness are configured.
The last hypothesis encodes the data-model invariant that no two declared
fields collide after case conversion. -/
theorem snakeAndCamelSpellingsPopulateEqually (inst : Instance) (f : String)
    (v : Value) (cfg : Config) (decA optA : List (String × List String))
    (decT optT : List (String × Tf)) (cn : String)
    (hcamel : isCamelName f = true)
    (hfield : (getClassFields inst).contains f = true)
    (hnc : toSnakeCase f = f ∨ (getClassFields inst).contains (toSnakeCase f) = false) :
    toCamelCase (toSnakeCase f) = f ∧
    init inst cfg (Value.vObj [(toSnakeCase f, v)]) decA decT optA optT cn =
      init inst cfg (Value.vObj [(f, v)]) decA decT optA optT cn := by
  have hrt := toCamel_toSnake f hcamel
  refine ⟨hrt, ?_⟩
  rcases hnc with hsk | hsk
  · rw [hsk]
  · rw [init_object, init_object]
    simp only [List.foldl_cons, List.foldl_nil]
    by_cases hv : v.isUndef = true
    · rw [processEntry_skip_undef _ _ _ _ _ _ _ hv,
        processEntry_skip_undef _ _ _ _ _ _ _ hv]
    · have hfmfs : findMatchingField inst (toSnakeCase f) (getClassFields inst)
          (mergeRecord decA optA) = some f := by
        unfold findMatchingField
        rw [if_neg (fun hc => by rw [hsk] at hc; exact absurd hc (by simp)), hrt,
          if_pos hfield]
      have hfmff : findMatchingField inst f (getClassFields inst)
          (mergeRecord decA optA) = some f := by
        unfold findMatchingField
        rw [if_pos hfield]
      have hfne : f ≠ "" := isCamelName_ne_empty f hcamel
      have hrts : resolveTarget inst (toSnakeCase f) (getClassFields inst)
          (mergeRecord decA optA) = some f :=
        resolveTarget_of_findSome inst (toSnakeCase f) _ _ f hfmfs hfne
      have hrtf : resolveTarget inst f (getClassFields inst)
          (mergeRecord decA optA) = some f :=
        resolveTarget_of_findSome inst f _ _ f hfmff hfne
      have hfsu : startsUnderscore f = false := isCamelName_startsUnderscore f hcamel
      have hsa_s : shouldAssign (toSnakeCase f) f = true := by
        unfold shouldAssign
        simp only [Bool.and_eq_true, Bool.or_eq_true, bne_iff_ne, ne_eq,
          beq_iff_eq, Bool.not_eq_true']
        exact ⟨⟨hfne, hfsu⟩, Or.inl hrt.symm⟩
      have hsa_f : shouldAssign f f = true := by
        unfold shouldAssign
        simp only [Bool.and_eq_true, Bool.or_eq_true, bne_iff_ne, ne_eq,
          beq_iff_eq, Bool.not_eq_true']
        exact ⟨⟨hfne, hfsu⟩, Or.inl (toCamel_of_camelName f hcamel).symm⟩
      rw [processEntry_assign _ _ _ _ _ _ _ _ _
          (by simp [toSnakeCase_startsUnderscore f hcamel]) hv hrts hsa_s,
        processEntry_assign _ _ _ _ _ _ _ _ _ (by simp [hfsu]) hv hrtf hsa_f]

/-- Witness for C1 at the field `userId` of a `User`-like instance. -/
theorem snakeAndCamelSpellingsPopulateEqually_witness :
    isCamelName "userId" = true ∧
    (getClassFields ⟨[("userId", Value.vStr "")], ["init"]⟩).contains "userId" = true ∧
    (getClassFields ⟨[("userId", Value.vStr "")], ["init"]⟩).contains
      (toSnakeCase "userId") = false ∧
    (toCamelCase (toSnakeCase "userId") = "userId" ∧
     init ⟨[("userId", Value.vStr "")], ["init"]⟩ ⟨none, false, false⟩
         (Value.vObj [(toSnakeCase "userId", Value.vStr "U1")]) [] [] [] [] "User"
       = init ⟨[("userId", Value.vStr "")], ["init"]⟩ ⟨none, false, false⟩
         (Value.vObj [("userId", Value.vStr "U1")]) [] [] [] [] "User") :=
  ⟨by decide, by decide, by decide,
   snakeAndCamelSpellingsPopulateEqually ⟨[("userId", Value.vStr "")], ["init"]⟩
     "userId" (Value.vStr "U1") ⟨none, false, false⟩ [] [] [] [] "User"
     (by decide) (by decide) (Or.inr (by decide))⟩

/-- C2: a field with a registered transform always goes through the
transform: on success the result is assigned with no validation, on failure
the raw value is assigned and only a (possibly suppressed) Transform Failure
diagnostic is produced, and a Type Mismatch diagnostic is never emitted for
a field with a registered transform, on any payload. -/
theorem transformOverridesValidation (cfg : Config) (cn : String)
    (transforms : List (String × Tf)) (f : String) (t : Tf)
    (hreg : transforms.lookup f = some t) :
    (∀ (self : Instance) (v : Value),
       applyPipeline cfg cn transforms self f v =
         (self.setField f (match t v with
            | .ok r => r
            | .error _ => v),
          match t v with
          | .ok _ => []
          | .error m =>
              if cfg.strictMode && cfg.isDev then [Diag.transformFailure cn f m]
              else []))
    ∧ (∀ (self : Instance) (data : Value) (decA optA : List (String × List String))
         (decT optT : List (String × Tf)) (cn2 ex ac : String),
         mergeRecord decT optT = transforms →
         Diag.typeMismatch cn2 f ex ac ∉
           (init self cfg data decA decT optA optT cn).2) := by
  constructor
  · intro self v
    have h1 := applyPipeline_fst cfg cn transforms self f v
    have h2 := applyPipeline_snd_transform cfg cn transforms self f v t hreg
    rw [hreg] at h1
    rw [show applyPipeline cfg cn transforms self f v =
          ((applyPipeline cfg cn transforms self f v).1,
           (applyPipeline cfg cn transforms self f v).2) from rfl, h1, h2]
  · intro self data decA optA decT optT cn2 ex ac hmerge
    unfold init
    split
    · simp
    · rw [hmerge]
      exact foldl_no_typeMismatch cfg cn _ _ transforms f t hreg cn2 ex ac
        data.ownEntries self [] (by simp)

/-- Witness for C2: a transform that always throws leaves the raw value on
the field and produces exactly one Transform Failure diagnostic. -/
theorem transformOverridesValidation_witness :
    applyPipeline ⟨some true, false, true⟩ "User"
        [("age", fun _ => Except.error "boom")]
        ⟨[("age", Value.vNum 0)], []⟩ "age" (Value.vStr "30")
      = (⟨[("age", Value.vStr "30")], []⟩,
         [Diag.transformFailure "User" "age" "boom"]) := by
  have h := (transformOverridesValidation ⟨some true, false, true⟩ "User"
    [("age", fun _ => Except.error "boom")] "age"
    (fun _ => Except.error "boom") rfl).1 ⟨[("age", Value.vNum 0)], []⟩
    (Value.vStr "30")
  rw [h]
  rfl

/-- C4: for raw keys that are not `_`-prefixed (the only ones `init` feeds
to the resolver), `findMatchingField` equals the specification's six-step
resolution order embodied in `specResolve`, and an unresolvable key is
dropped silently: `init` on its singleton payload changes nothing and emits
nothing. -/
theorem resolverFollowsSpecOrder (self : Instance) (k : String)
    (h : startsUnderscore k = false) :
    (∀ (cf : List String) (al : List (String × List String)),
       findMatchingField self k cf al = specResolve self k cf al)
    ∧ (∀ (v : Value) (cfg : Config) (decA optA : List (String × List String))
         (decT optT : List (String × Tf)) (cn : String),
         specResolve self k (getClassFields self) (mergeRecord decA optA) = none →
         init self cfg (Value.vObj [(k, v)]) decA decT optA optT cn = (self, [])) := by
  constructor
  · intro cf al
    exact findMatchingField_eq_spec self k cf al h
  · intro v cfg decA optA decT optT cn hnone
    have hfmf : findMatchingField self k (getClassFields self)
        (mergeRecord decA optA) = none := by
      rw [findMatchingField_eq_spec self k _ _ h]
      exact hnone
    rw [init_object]
    simp only [List.foldl_cons, List.foldl_nil]
    by_cases h2 : (k, v).2.isUndef = true
    · exact processEntry_skip_undef _ _ _ _ _ _ _ h2
    · exact processEntry_skip_none _ _ _ _ _ _ _ _ (by simp [h]) h2
        (resolveTarget_none self k _ _ hfmf)

/-- Witness for C4 at the key `user_id` against a `userId` field. -/
theorem resolverFollowsSpecOrder_witness :
    findMatchingField ⟨[("userId", Value.vStr "")], []⟩ "user_id" ["userId"] []
      = specResolve ⟨[("userId", Value.vStr "")], []⟩ "user_id" ["userId"] [] :=
  (resolverFollowsSpecOrder ⟨[("userId", Value.vStr "")], []⟩ "user_id"
    (by decide)).1 ["userId"] []

/-- C5: on any single-key payload, `init` either leaves the instance
untouched or writes exactly one field `t` with `t = toCamelCase k` or `k`
underscore-free; consequently a snake_case key whose camelCase projection
differs from it is never written under its own spelling. -/
theorem snakeKeyNeverWrittenVerbatim (self : Instance) (cfg : Config)
    (k : String) (v : Value) (decA optA : List (String × List String))
    (decT optT : List (String × Tf)) (cn : String) :
    (init self cfg (Value.vObj [(k, v)]) decA decT optA optT cn).1 = self ∨
    ∃ t w, (init self cfg (Value.vObj [(k, v)]) decA decT optA optT cn).1
        = self.setField t w ∧
      (t = toCamelCase k ∨ containsUnderscore k = false) ∧
      (containsUnderscore k = false ∨ toCamelCase k = k ∨ t ≠ k) := by
  rw [init_object]
  simp only [List.foldl_cons, List.foldl_nil]
  by_cases h1 : startsUnderscore (k, v).1 = true
  · left
    rw [processEntry_skip_underscore _ _ _ _ _ _ _ h1]
  · by_cases h2 : (k, v).2.isUndef = true
    · left
      rw [processEntry_skip_undef _ _ _ _ _ _ _ h2]
    · cases htk : resolveTarget self (k, v).1 (getClassFields self)
          (mergeRecord decA optA) with
      | none =>
        left
        rw [processEntry_skip_none _ _ _ _ _ _ _ _ h1 h2 htk]
      | some t =>
        by_cases hsa : shouldAssign (k, v).1 t = true
        · right
          have hsa2 := hsa
          unfold shouldAssign at hsa2
          simp only [Bool.and_eq_true, Bool.or_eq_true, beq_iff_eq,
            Bool.not_eq_true'] at hsa2
          refine ⟨t, (match (mergeRecord decT optT).lookup t with
            | some fn => match fn v with
              | .ok r => r
              | .error _ => v
            | none => v), ?_, ?_, ?_⟩
          · rw [processEntry_assign _ _ _ _ _ _ _ _ _ h1 h2 htk hsa]
            exact applyPipeline_fst cfg cn (mergeRecord decT optT) self t v
          · rcases hsa2.2 with h | h
            · exact Or.inl h
            · exact Or.inr h
          · by_cases hcu : containsUnderscore k = false
            · exact Or.inl hcu
            · by_cases hck : toCamelCase k = k
              · exact Or.inr (Or.inl hck)
              · refine Or.inr (Or.inr ?_)
                rcases hsa2.2 with h | h
                · rw [h]
                  exact hck
                · exact absurd h hcu
        · left
          rw [processEntry_skip_guard _ _ _ _ _ _ _ _ _ h1 h2 htk hsa]

/-- C7: a class field declared without an initializer exists at runtime as
an own property holding `undefined`; populating with `{age: "30"}` under
strict development diagnostics assigns the string and emits no diagnostic,
because no expected type can be derived from an `undefined` current value. -/
theorem uninitializedFieldAssignedWithoutDiagnostic :
    init ⟨[("age", Value.vUndefined)], ["init", "toPlain", "toJSON"]⟩
        ⟨some true, false, true⟩ (Value.vObj [("age", Value.vStr "30")]) [] [] [] []
        "NoInitialValueDto"
      = (⟨[("age", Value.vStr "30")], ["init", "toPlain", "toJSON"]⟩, []) := by
  decide

/-- C3: refuted.  The source `init` is not total: in strict development mode
a type mismatch formats its console warning with `JSON.stringify(value)`
(src/index.ts line 307) outside any `try`/`catch`, so a payload value that
`JSON.stringify` rejects — here a BigInt — makes `init` throw a `TypeError`
to its caller.  The error-faithful `initE` returns an error on this run
instead of a normal result. -/
theorem initThrowsOnUnserializableMismatch :
    initE (Instance.mk [("age", Value.vNum 0)] ["init"]) ⟨some true, false, true⟩
        (Value.vObj [("age", Value.vBigInt 10)]) [] [] [] [] "AgeDto"
      = Except.error "TypeError: JSON.stringify" := by
  rfl

/-- C6: refuted.  Diagnostics settings do change field data: with declared
field `age = 0` and payload `age = 10n` (a BigInt), the strict development
run throws from the warning's `JSON.stringify` before the assignment, so
`age` keeps its default, while the identical payload with strict mode off
assigns the BigInt.  The final field data therefore depends on the
strictness configuration, contradicting the claim that diagnostics only
add warnings. -/
theorem strictSettingsChangeFieldData :
    initE (Instance.mk [("age", Value.vNum 0)] ["init"]) ⟨some true, false, true⟩
        (Value.vObj [("age", Value.vBigInt 10)]) [] [] [] [] "AgeDto"
      = Except.error "TypeError: JSON.stringify" ∧
    initE (Instance.mk [("age", Value.vNum 0)] ["init"]) ⟨some false, false, false⟩
        (Value.vObj [("age", Value.vBigInt 10)]) [] [] [] [] "AgeDto"
      = Except.ok (Instance.mk [("age", Value.vBigInt 10)] ["init"], []) :=
  ⟨rfl, rfl⟩

/-- C8 (corrected): projecting a populated instance with `toPlain(true)`,
repopulating a fresh instance of the same class from that plain object, and
projecting with `toPlain(false)` reproduces the original `toPlain(false)`
output, for instances whose fields are camelCase-named, collision-free and
primitive-valued (the claim's exclusion of object/array-typed fields),
under any alias tables and under any transform tables that register no
transform for the involved fields.  The last hypothesis is the correction:
the unqualified claim is refuted by `toPlainRoundTrip_counterexample`, a
class transform that doubles a numeric field and so is applied a second
time on repopulation. -/
theorem toPlainRoundTrip (fields0 fields1 : List (String × Value))
    (ms0 ms1 : List String) (cfg : Config) (cn : String)
    (decA optA : List (String × List String)) (decT optT : List (String × Tf))
    (hkeys : fields0.map Prod.fst = fields1.map Prod.fst)
    (hnd : (fields1.map Prod.fst).Nodup)
    (hgood : ∀ p ∈ fields1, isCamelName p.1 = true ∧ p.2.isPrimitive = true)
    (hnc : ∀ p ∈ fields1, toSnakeCase p.1 = p.1 ∨
       (fields1.map Prod.fst).contains (toSnakeCase p.1) = false)
    (h0 : ∀ p ∈ fields0, p.2.typeof ≠ "function")
    (htf : ∀ p ∈ fields1, (mergeRecord decT optT).lookup p.1 = none) :
    toPlain (init (Instance.mk fields0 ms0) cfg
        (Value.vObj (toPlain (Instance.mk fields1 ms1) true))
        decA decT optA optT cn).1 false
      = toPlain (Instance.mk fields1 ms1) false := by
  have hplain : toPlain (Instance.mk fields1 ms1) true =
      fields1.map (fun p => (toSnakeCase p.1, p.2)) :=
    toPlainFields_primitive true fields1
      (fun p hp => ⟨isCamelName_startsUnderscore p.1 (hgood p hp).1, (hgood p hp).2⟩)
  have hCF : getClassFields ⟨fields0, ms0⟩ = fields1.map Prod.fst := by
    rw [getClassFields_eq_keys fields0 ms0 ?keysok]
    · exact hkeys
    case keysok =>
      intro p hp
      constructor
      · have hm : p.1 ∈ fields1.map Prod.fst := by
          rw [← hkeys]
          exact List.mem_map_of_mem Prod.fst hp
        obtain ⟨q, hq, hq1⟩ := List.mem_map.mp hm
        rw [← hq1]
        exact isCamelName_startsUnderscore q.1 (hgood q hq).1
      · exact h0 p hp
  rw [hplain, init_object, hCF]
  rw [foldl_snake cfg cn (fields1.map Prod.fst) (mergeRecord decA optA)
    (mergeRecord decT optT) fields1 (Instance.mk fields0 ms0) [] ?hyp]
  · rw [writeFields_mk, listWrite_eq fields1 fields0 hkeys hnd]
    rfl
  case hyp =>
    intro p hp
    refine ⟨(hgood p hp).1, (hgood p hp).2, ?_, htf p hp, hnc p hp⟩
    exact List.elem_eq_true_of_mem (List.mem_map_of_mem Prod.fst hp)

/-- Witness for C8 on a two-field instance with no transforms registered. -/
theorem toPlainRoundTrip_witness :
    toPlain (init (Instance.mk [("userId", Value.vStr ""), ("age", Value.vNum 0)]
          ["init"]) ⟨none, false, false⟩
        (Value.vObj (toPlain (Instance.mk
          [("userId", Value.vStr "U1"), ("age", Value.vNum 30)] ["init"]) true))
        [] [] [] [] "User").1 false
      = toPlain (Instance.mk [("userId", Value.vStr "U1"), ("age", Value.vNum 30)]
          ["init"]) false :=
  toPlainRoundTrip [("userId", Value.vStr ""), ("age", Value.vNum 0)]
    [("userId", Value.vStr "U1"), ("age", Value.vNum 30)] ["init"] ["init"]
    ⟨none, false, false⟩ "User" [] [] [] [] (by decide) (by decide) (by decide)
    (by decide) (by decide) (fun _ _ => rfl)

/-- Counterexample to the unqualified C8 round trip: a class transform that
doubles the numeric field `amount` is applied once when the instance is
first populated and a second time when the `toPlain(true)` output is fed to
a fresh instance of the same class, so the repopulated projection differs
from the original.  Mirrors `@FlexField({ transform: v => v * 2 })` in the
source. -/
theorem toPlainRoundTrip_counterexample :
    toPlain (init (Instance.mk [("amount", Value.vNum 0)] ["init"])
        ⟨none, false, false⟩
        (Value.vObj (toPlain (Instance.mk [("amount", Value.vNum 10)] ["init"])
          true))
        []
        [("amount", fun v => match v with
            | Value.vNum n => Except.ok (Value.vNum (2 * n))
            | w => Except.ok w)]
        [] [] "Money").1 false
      ≠ toPlain (Instance.mk [("amount", Value.vNum 10)] ["init"]) false := by
  decide

/-- C9: a payload entry whose value is `undefined` is skipped before any
resolution: `init` behaves exactly as if the key were absent, and on a
singleton undefined-valued payload it changes nothing and emits nothing. -/
theorem undefinedValuesSkipped (self : Instance) (cfg : Config)
    (e1 e2 : List (String × Value)) (k cn : String)
    (decA optA : List (String × List String)) (decT optT : List (String × Tf)) :
    init self cfg (Value.vObj (e1 ++ (k, Value.vUndefined) :: e2)) decA decT
        optA optT cn
      = init self cfg (Value.vObj (e1 ++ e2)) decA decT optA optT cn
    ∧ init self cfg (Value.vObj [(k, Value.vUndefined)]) decA decT optA optT cn
      = (self, []) := by
  constructor
  · rw [init_object, init_object, List.foldl_append, List.foldl_append,
      List.foldl_cons, processEntry_undefined]
  · rw [init_object]
    simp only [List.foldl_cons, List.foldl_nil, processEntry_undefined]

/-- C10: when the data given to `init` is falsy (null, undefined, false, 0,
the empty string) or not of object type (a string, number, boolean or
function), `init` returns immediately: the instance is unchanged and no
diagnostic is emitted. -/
theorem nonObjectDataLeavesInstanceUnchanged (self : Instance) (cfg : Config)
    (data : Value) (decA optA : List (String × List String))
    (decT optT : List (String × Tf)) (cn : String)
    (h : data.isTruthy = false ∨ data.typeof ≠ "object") :
    init self cfg data decA decT optA optT cn = (self, []) := by
  have hcond : (!data.isTruthy || data.typeof != "object") = true := by
    rcases h with h | h
    · rw [h]
      rfl
    · simp [h]
  unfold init
  rw [if_pos hcond]

/-- Witness for C10 with a string payload. -/
theorem nonObjectDataLeavesInstanceUnchanged_witness :
    ((Value.vStr "hello").isTruthy = false ∨ (Value.vStr "hello").typeof ≠ "object") ∧
    init ⟨[("userId", Value.vStr "")], ["init"]⟩ ⟨none, true, true⟩
        (Value.vStr "hello") [] [] [] [] "User"
      = (⟨[("userId", Value.vStr "")], ["init"]⟩, []) :=
  ⟨Or.inr (by decide),
   nonObjectDataLeavesInstanceUnchanged ⟨[("userId", Value.vStr "")], ["init"]⟩
     ⟨none, true, true⟩ (Value.vStr "hello") [] [] [] [] "User" (Or.inr (by decide))⟩

theorem validateType_ok (cfg : Config) (cn k : String) (v : Value) (et : String)
    (ds : List Diag) (h : validateType cfg cn k v et = .ok ds) :
    validateTypeDiags cfg cn k v et = ds := by
  unfold validateType at h
  unfold validateTypeDiags
  by_cases h1 : (!cfg.strictMode) = true
  · rw [if_pos h1] at h
    rw [if_pos h1]
    exact Except.ok.inj h
  · rw [if_neg h1] at h
    rw [if_neg h1]
    by_cases h2 : (!(v.typeof == et || (et == "object" &&
        (v.typeof == "object" || v.typeof == "undefined" || v.isNullValue)))) = true
    · rw [if_pos h2] at h
      rw [if_pos h2]
      by_cases h3 : cfg.isDev = true
      · rw [if_pos h3] at h
        rw [if_pos h3]
        by_cases h4 : jsonUnserializable v = true
        · rw [if_pos h4] at h
          exact Except.noConfusion h
        · rw [if_neg h4] at h
          exact Except.ok.inj h
      · rw [if_neg h3] at h
        rw [if_neg h3]
        exact Except.ok.inj h
    · rw [if_neg h2] at h
      rw [if_neg h2]
      exact Except.ok.inj h

theorem applyPipelineE_ok (cfg : Config) (cn : String) (tf : List (String × Tf))
    (self : Instance) (t : String) (v : Value) (step : Instance × List Diag)
    (h : applyPipelineE cfg cn tf self t v = .ok step) :
    applyPipeline cfg cn tf self t v = step := by
  unfold applyPipelineE at h
  unfold applyPipeline
  cases htf : tf.lookup t with
  | some f =>
    simp only [htf] at h ⊢
    cases hfv : f v with
    | ok r =>
      simp only [hfv] at h ⊢
      exact Except.ok.inj h
    | error m =>
      simp only [hfv] at h ⊢
      exact Except.ok.inj h
  | none =>
    simp only [htf] at h ⊢
    by_cases hu : (self.getProp t).isUndef = true
    · rw [if_pos hu] at h
      rw [if_pos hu]
      exact Except.ok.inj h
    · rw [if_neg hu] at h
      rw [if_neg hu]
      show (self.setField t v, if cfg.strictMode = true
        then validateTypeDiags cfg cn t v ((self.getProp t).typeof) else []) = step
      by_cases hs : cfg.strictMode = true
      · rw [if_pos hs] at h
        rw [if_pos hs]
        cases hvt : validateType cfg cn t v ((self.getProp t).typeof) with
        | ok ds =>
          rw [hvt] at h
          rw [validateType_ok cfg cn t v _ ds hvt]
          exact Except.ok.inj h
        | error e2 =>
          rw [hvt] at h
          exact Except.noConfusion h
      · rw [if_neg hs] at h
        rw [if_neg hs]
        exact Except.ok.inj h

theorem processEntryE_ok (cfg : Config) (cn : String) (cf : List String)
    (al : List (String × List String)) (tf : List (String × Tf))
    (acc : Instance × List Diag) (e : String × Value)
    (r : Instance × List Diag) (h : processEntryE cfg cn cf al tf acc e = .ok r) :
    processEntry cfg cn cf al tf acc e = r := by
  unfold processEntryE at h
  unfold processEntry
  by_cases h1 : startsUnderscore e.1 = true
  · rw [if_pos h1] at h
    rw [if_pos h1]
    exact Except.ok.inj h
  · rw [if_neg h1] at h
    rw [if_neg h1]
    by_cases h2 : e.2.isUndef = true
    · rw [if_pos h2] at h
      rw [if_pos h2]
      exact Except.ok.inj h
    · rw [if_neg h2] at h
      rw [if_neg h2]
      cases htk : resolveTarget acc.1 e.1 cf al with
      | none =>
        simp only [htk] at h ⊢
        exact Except.ok.inj h
      | some t =>
        simp only [htk] at h ⊢
        by_cases hsa : shouldAssign e.1 t = true
        · rw [if_pos hsa] at h
          rw [if_pos hsa]
          cases hap : applyPipelineE cfg cn tf acc.1 t e.2 with
          | ok step =>
            simp only [hap] at h
            rw [applyPipelineE_ok cfg cn tf acc.1 t e.2 step hap]
            exact Except.ok.inj h
          | error e2 =>
            simp only [hap] at h
            exact Except.noConfusion h
        · rw [if_neg hsa] at h
          rw [if_neg hsa]
          exact Except.ok.inj h

theorem foldlME_ok (cfg : Config) (cn : String) (cf : List String)
    (al : List (String × List String)) (tf : List (String × Tf)) :
    ∀ (es : List (String × Value)) (acc : Instance × List Diag)
      (r : Instance × List Diag),
    es.foldlM (processEntryE cfg cn cf al tf) acc = .ok r →
    es.foldl (processEntry cfg cn cf al tf) acc = r
  | [], acc, r, h => by
      rw [List.foldl_nil]
      exact Except.ok.inj h
  | e :: es, acc, r, h => by
      cases hstep : processEntryE cfg cn cf al tf acc e with
      | error e2 =>
        rw [List.foldlM_cons, hstep] at h
        exact Except.noConfusion h
      | ok acc2 =>
        rw [List.foldlM_cons, hstep] at h
        rw [List.foldl_cons, processEntryE_ok cfg cn cf al tf acc e acc2 hstep]
        exact foldlME_ok cfg cn cf al tf es acc2 r h

/-- On every run in which no warning-formatting throw occurs, the
error-faithful `initE` and the total `init` agree: `init` is exactly the
restriction of the source behaviour to its non-throwing executions. -/
theorem initE_ok_agrees (self : Instance) (cfg : Config) (data : Value)
    (decA optA : List (String × List String)) (decT optT : List (String × Tf))
    (cn : String) (r : Instance × List Diag)
    (h : initE self cfg data decA decT optA optT cn = .ok r) :
    init self cfg data decA decT optA optT cn = r := by
  unfold initE at h
  unfold init
  by_cases hc : (!data.isTruthy || data.typeof != "object") = true
  · rw [if_pos hc] at h
    rw [if_pos hc]
    exact Except.ok.inj h
  · rw [if_neg hc] at h
    rw [if_neg hc]
    exact foldlME_ok cfg cn _ _ _ data.ownEntries (self, []) r h

end FlexDto
